import Mathlib

/-!
Shallow embedding of the PyEE core: the Units dimension-vector algebra
(src/pyee/types/units.py), SI magnitude scaling (src/pyee/types/prefixes.py),
scalar physical quantities (src/pyee/types/physicalquantity.py), polynomial
helpers (src/pyee/math/polynomials.py) and the impedance specialization
(src/pyee/types/impedance.py).  Python floats are modelled as rationals,
Python dicts as association lists compared with order-insensitive dict
equality, and raising an exception as an Except or Option result.
-/

namespace PyEE

/-- Global tolerance, pyee/__init__.py: GLOBAL_TOLERANCE is the numeric
configuration parameter with default 1e-15. -/
def GLOBAL_TOLERANCE : ℚ := 1 / 10 ^ 15

/-- Python exception classes raised by the modelled code: UnitsMissmatchException,
ValueError (also the error np.max raises on an empty selection), TypeError. -/
inductive PyErr where
  | unitsMismatch
  | valueError
  | typeError
  deriving DecidableEq, Repr

/-- Python dict lookup d.get(k) on a string-keyed dict. -/
def dlookup {α : Type} : List (String × α) → String → Option α
  | [], _ => none
  | kv :: t, k => if kv.1 = k then some kv.2 else dlookup t k

/-- Python d.get(k, 0) on an exponent dict. -/
def getDz (s : List (String × Int)) (k : String) : Int := (dlookup s k).getD 0

/-- Python dict equality: both dicts have the same keys with the same values. -/
def dictEqb (a b : List (String × Int)) : Bool :=
  (a.all fun kv => dlookup b kv.1 == some kv.2) &&
  (b.all fun kv => dlookup a kv.1 == some kv.2)

/-- Units, src/pyee/types/units.py: one exponent dict s using negative exponents
for the denominator, plus a context tag.  Unitless instances have empty s. -/
structure Units where
  s : List (String × Int)
  context : String
  deriving DecidableEq, Repr

/-- Units.create_unitless: an empty dict with the default context Electrical. -/
def unitlessU : Units := ⟨[], "Electrical"⟩

/-- The key set union formed by Units arithmetic: set(self.s.keys() | s2.keys()). -/
def unionKeys (a b : List (String × Int)) : List String :=
  a.map Prod.fst ++ (b.map Prod.fst).filter (fun k => (dlookup a k).isNone)

/-- Units.__mul__: the result maps every symbol of the key union to
self.s.get(u,0) + s2.get(u,0); zero sums are kept.  The result is built with
Units(ur), whose context defaults to Electrical. -/
def Units.mul (u1 u2 : Units) : Units :=
  ⟨(unionKeys u1.s u2.s).map (fun k => (k, getDz u1.s k + getDz u2.s k)), "Electrical"⟩

/-- Units.__truediv__: pointwise self.s.get(u,0) - s2.get(u,0) over the key
union; zero differences are kept; default context on the result. -/
def Units.div (u1 u2 : Units) : Units :=
  ⟨(unionKeys u1.s u2.s).map (fun k => (k, getDz u1.s k - getDz u2.s k)), "Electrical"⟩

/-- Units.__rtruediv__ in the other == 1 case: every exponent is negated and a
new Units with default context is returned.  This is the inversion 1/u. -/
def Units.invert (u : Units) : Units :=
  ⟨u.s.map (fun kv => (kv.1, -kv.2)), "Electrical"⟩

/-- Units.__eq__: plain dict equality of the exponent mappings; the context
tag is ignored. -/
def ueqb (u1 u2 : Units) : Bool := dictEqb u1.s u2.s

/-- Context tables: a context name gives a list of pairs of a unit symbol and the
base exponent dict of that symbol.  The on-disk SI_units json files are not
part of src, so table contents stay abstract parameters here; the algorithms
below are the loops from src/pyee/types/units.py. -/
def CtxTables : Type := String → List (String × List (String × Int))

/-- The sbase accumulation sbase[su] = sbase.get(su,0) + v, keeping the dict
insertion order of Python dicts. -/
def upsertAdd (s : List (String × Int)) (k : String) (v : Int) : List (String × Int) :=
  match dlookup s k with
  | some _ => s.map (fun kv => if kv.1 = k then (kv.1, kv.2 + v) else kv)
  | none => s ++ [(k, v)]

/-- The assignment self.context = context performed by as_base and simplify
when an explicit context argument is given: the receiver with its context tag
replaced; with no argument the receiver keeps its context. -/
def setContext (u : Units) (context : Option String) : Units :=
  ⟨u.s, context.getD u.context⟩

/-- Units.as_base: when an explicit context argument is given, the method first
assigns self.context = context, mutating the receiver; the expansion then walks
the exponent dict, replacing every symbol found in the context table by its
base dict scaled by the exponent, and returns a new Units in the resolved
context.  The value returned here is the pair of the receiver as it is after
the call and the Units the method returns. -/
def asBase (u : Units) (context : Option String) (tables : CtxTables) : Units × Units :=
  let receiver : Units := setContext u context
  let cntxt := tables receiver.context
  let sbase := u.s.foldl (fun acc kv =>
    match dlookup cntxt kv.1 with
    | some base => base.foldl (fun acc2 b => upsertAdd acc2 b.1 (b.2 * kv.2)) acc
    | none => upsertAdd acc kv.1 kv.2) []
  (receiver, ⟨sbase, receiver.context⟩)

/-- Substitution tables of a context: pattern exponent dict and replacement
Units, the _subs part of the data files. -/
def SubsTables : Type := String → List (List (String × Int) × Units)

/-- Units.simplify: mutates self.context exactly like as_base, then searches the
context table for a named unit whose base dict equals this exponent dict,
returning Units.from_string(name) in the current context (a single-symbol map,
since per the data format the table names are plain unit symbols - modelled
from the spec because the data files are not under src); otherwise searches the
substitution table, returning a copy of the replacement; otherwise returns
self, the receiver itself.  Result: (receiver after the call, returned Units). -/
def usimplify (u : Units) (context : Option String) (tables : CtxTables)
    (subs : SubsTables) : Units × Units :=
  match (tables (setContext u context).context).find?
      (fun nv => dictEqb nv.2 (setContext u context).s) with
  | some nv => (setContext u context, ⟨[(nv.1, 1)], (setContext u context).context⟩)
  | none =>
    match (subs (setContext u context).context).find?
        (fun pr => dictEqb (setContext u context).s pr.1) with
    | some pr => (setContext u context, pr.2)
    | none => (setContext u context, setContext u context)

/-- An SI magnitude scaling, src/pyee/types/prefixes.py: symbol, factor, name. -/
structure Pfx where
  s : String
  f : ℚ
  n : String
  deriving DecidableEq, Repr, Inhabited

/-- Modelled from the spec: the SI_prefixes json data file is not under src.
Per the spec the factors are powers of ten from 1e-24 up to 1e24, one
symbol and name per factor, and the selection rule guarantees mantissas in
the range one to a thousand, so the table holds every third power of ten.
Listed ascending by factor, which is the sorted _data_value_scale order. -/
def pfxTable : List Pfx :=
  [⟨"y", 1 / 10 ^ 24, "yocto"⟩, ⟨"z", 1 / 10 ^ 21, "zepto"⟩, ⟨"a", 1 / 10 ^ 18, "atto"⟩,
   ⟨"f", 1 / 10 ^ 15, "femto"⟩, ⟨"p", 1 / 10 ^ 12, "pico"⟩, ⟨"n", 1 / 10 ^ 9, "nano"⟩,
   ⟨"u", 1 / 10 ^ 6, "micro"⟩, ⟨"m", 1 / 10 ^ 3, "milli"⟩, ⟨"", 1, ""⟩,
   ⟨"k", 10 ^ 3, "kilo"⟩, ⟨"M", 10 ^ 6, "mega"⟩, ⟨"G", 10 ^ 9, "giga"⟩,
   ⟨"T", 10 ^ 12, "tera"⟩, ⟨"P", 10 ^ 15, "peta"⟩, ⟨"E", 10 ^ 18, "exa"⟩,
   ⟨"Z", 10 ^ 21, "zetta"⟩, ⟨"Y", 10 ^ 24, "yotta"⟩]

/-- Prefix.from_number: diffs marks every factor v with pnum - v greater or
equal zero (no absolute value is taken); the selected index is
max(np.max(diffs.nonzero()), 0), so over the ascending factor scale the last
qualifying table entry is selected; np.max raises ValueError (modelled as
none) when no factor qualifies. -/
def fromNumberPfx (x : ℚ) : Option Pfx :=
  (pfxTable.filter (fun p => decide (0 ≤ x - p.f))).getLast?

/-- converters.vp_from_number: p = Prefix.from_number(number), v = number/p.f. -/
def vpFromNumber (x : ℚ) : Option (ℚ × Pfx) :=
  (fromNumberPfx x).map (fun p => (x / p.f, p))

/-- PhysicalQuantity: mantissa v, magnitude p, units u. -/
structure PQ where
  v : ℚ
  p : Pfx
  u : Units
  deriving DecidableEq, Repr

/-- The true numeric value self.v*self.p of a quantity: mantissa times factor. -/
def pqValue (q : PQ) : ℚ := q.v * q.p.f

/-- PhysicalQuantity.from_value: value and magnitude via vp_from_number, units
attached unchanged (Units.from_any returns a Units instance as is). -/
def pqFromValue (x : ℚ) (u : Units) : Option PQ :=
  (vpFromNumber x).map (fun vp => ⟨vp.1, vp.2, u⟩)

/-- physicalquantity.py line 39: the module rebinds this name to the constant
False, shadowing the configuration object of the same name. -/
def ERROR_ON_UNITLESS_OPERATORS : Bool := false

/-- pyee.__init__: BooleanConfigParameter(False), so the process default of the
strictness toggle is False, the permissive setting.  No operator of
physicalquantity.py ever reads this parameter. -/
def ERROR_ON_UNIT_MISSMATCH_DEFAULT : Bool := false

/-- PhysicalQuantity.__eq__ against another PhysicalQuantity: False when the
units dicts differ, otherwise exact comparison of the true numeric values
self.v*self.p and other.v*other.p.  No tolerance is applied. -/
def pqEqB (a b : PQ) : Bool :=
  if ueqb a.u b.u = false then false else decide (pqValue a = pqValue b)

/-- PhysicalQuantity.__add__: for another PhysicalQuantity, a units mismatch
raises UnitsMissmatchException unconditionally; otherwise the true values are
added and rebalanced by vp_from_number, keeping the left units.  For a non
quantity operand the module constant ERROR_ON_UNITLESS_OPERATORS selects
between a TypeError and treating the operand as a bare scalar in the left
units after a logged warning. -/
def pqAdd (a : PQ) (other : PQ ⊕ ℚ) : Except PyErr PQ :=
  match other with
  | .inl b =>
    if ueqb a.u b.u = false then .error .unitsMismatch
    else match vpFromNumber (pqValue a + pqValue b) with
      | some vp => .ok ⟨vp.1, vp.2, a.u⟩
      | none => .error .valueError
  | .inr x =>
    if ERROR_ON_UNITLESS_OPERATORS then .error .typeError
    else match vpFromNumber (pqValue a + x) with
      | some vp => .ok ⟨vp.1, vp.2, a.u⟩
      | none => .error .valueError

/-- PhysicalQuantity.__sub__, same structure as the addition. -/
def pqSub (a : PQ) (other : PQ ⊕ ℚ) : Except PyErr PQ :=
  match other with
  | .inl b =>
    if ueqb a.u b.u = false then .error .unitsMismatch
    else match vpFromNumber (pqValue a - pqValue b) with
      | some vp => .ok ⟨vp.1, vp.2, a.u⟩
      | none => .error .valueError
  | .inr x =>
    if ERROR_ON_UNITLESS_OPERATORS then .error .typeError
    else match vpFromNumber (pqValue a - x) with
      | some vp => .ok ⟨vp.1, vp.2, a.u⟩
      | none => .error .valueError

/-- polynomials.polyeval: the sum of c[e] times x to the e over the coefficient
array, the array index being the exponent. -/
def polyeval (c : List ℚ) (x : ℚ) : ℚ :=
  ∑ e ∈ Finset.range c.length, c.getD e 0 * x ^ e

/-- Coefficient k of the double loop fullmul[e1+e2] += a*b of polymul. -/
def convCoeff (c1 c2 : List ℚ) (k : Nat) : ℚ :=
  ∑ i ∈ Finset.range (k + 1), c1.getD i 0 * c2.getD (k - i) 0

/-- The fullmul array of polymul: length len(c1)+len(c2), entry k the
convolution coefficient. -/
def convFull (c1 c2 : List ℚ) : List ℚ :=
  (List.range (c1.length + c2.length)).map (convCoeff c1 c2)

/-- The slice sqmul[:nzi] with nzi one past the last nonzero entry: all
trailing zero coefficients are removed. -/
def dropTrailingZeros (l : List ℚ) : List ℚ :=
  (l.reverse.dropWhile (fun a => decide (a = 0))).reverse

/-- polynomials.polymul: builds the convolution, then truncates at the last
nonzero coefficient.  When every coefficient is zero, sqmul.nonzero() is
empty and np.max raises ValueError, modelled as none. -/
def polymul (c1 c2 : List ℚ) : Option (List ℚ) :=
  let full := convFull c1 c2
  if full.all (fun a => decide (a = 0)) then none
  else some (dropTrailingZeros full)

/-- polynomials.polyadd: the shorter array is zero padded, then the arrays are
added pointwise; the result length is the larger input length. -/
def polyadd (c1 c2 : List ℚ) : List ℚ :=
  (List.range (max c1.length c2.length)).map (fun k => c1.getD k 0 + c2.getD k 0)

/-- polynomials.polysub: zero padding followed by pointwise subtraction. -/
def polysub (c1 c2 : List ℚ) : List ℚ :=
  (List.range (max c1.length c2.length)).map (fun k => c1.getD k 0 - c2.getD k 0)

/-- The polynomial denoted by a coefficient list, index as power.  Semantic
helper for stating theorems; not part of the translated code. -/
noncomputable def toPoly (c : List ℚ) : Polynomial ℚ :=
  ∑ e ∈ Finset.range c.length, Polynomial.C (c.getD e 0) * Polynomial.X ^ e

/-- DependantPhysicalQuantity: numerator and denominator coefficient arrays, a
Units tag, the optional default evaluation point var0 and a tolerance. -/
structure DPQ where
  num : List ℚ
  den : List ℚ
  u : Units
  var0 : Option PQ
  tol : ℚ
  deriving DecidableEq, Repr

/-- DependantPhysicalQuantity.__mul__ against another dependant quantity:
nn = polymul(num, num) first, nd = polymul(den, den) second, units multiplied,
left var0 kept, tolerance the constructor default. -/
def dpqMul (a b : DPQ) : Except PyErr DPQ :=
  match polymul a.num b.num with
  | none => .error .valueError
  | some nn =>
    match polymul a.den b.den with
    | none => .error .valueError
    | some nd => .ok ⟨nn, nd, Units.mul a.u b.u, a.var0, GLOBAL_TOLERANCE⟩

/-- DependantPhysicalQuantity.__add__ against another dependant quantity:
a units mismatch raises UnitsMissmatchException; otherwise
nd = polymul(den1, den2), num_a = polymul(num1, den2), num_b = polymul(den1, num2)
in that order, nn = polyadd(num_a, num_b), units a copy of the left units and
var0 the left var0. -/
def dpqAdd (a b : DPQ) : Except PyErr DPQ :=
  if ueqb a.u b.u = false then .error .unitsMismatch
  else match polymul a.den b.den with
    | none => .error .valueError
    | some nd =>
      match polymul a.num b.den with
      | none => .error .valueError
      | some na =>
        match polymul a.den b.num with
        | none => .error .valueError
        | some nb => .ok ⟨polyadd na nb, nd, ⟨a.u.s, a.u.context⟩, a.var0, GLOBAL_TOLERANCE⟩

/-- DependantPhysicalQuantity.__sub__: as the addition with nn = polysub. -/
def dpqSub (a b : DPQ) : Except PyErr DPQ :=
  if ueqb a.u b.u = false then .error .unitsMismatch
  else match polymul a.den b.den with
    | none => .error .valueError
    | some nd =>
      match polymul a.num b.den with
      | none => .error .valueError
      | some na =>
        match polymul a.den b.num with
        | none => .error .valueError
        | some nb => .ok ⟨polysub na nb, nd, ⟨a.u.s, a.u.context⟩, a.var0, GLOBAL_TOLERANCE⟩

/-- The tail of DependantPhysicalQuantity.__call__: vn and vd are the two
polynomial evaluations and the result is PhysicalQuantity.from_value(vn/vd,
self.u), which fails inside Prefix.from_number when vn/vd is outside the
range of the table. -/
def dpqEvalAt (d : DPQ) (val : ℚ) : Except PyErr PQ :=
  match pqFromValue (polyeval d.num val / polyeval d.den val) d.u with
  | some q => .ok q
  | none => .error .valueError

/-- The PhysicalQuantity branch of __call__: when var0 is set and its units
differ from the units of the argument, UnitsMissmatchException is raised;
otherwise the true value of the argument is evaluated.  The module constant
ERROR_ON_UNITLESS_OPERATORS is False, so that elif branch never fires. -/
def dpqCallPQ (d : DPQ) (q : PQ) : Except PyErr PQ :=
  match d.var0 with
  | some v0 => if ueqb v0.u q.u = false then .error .unitsMismatch
               else dpqEvalAt d (pqValue q)
  | none => dpqEvalAt d (pqValue q)

/-- DependantPhysicalQuantity.__call__: with no argument and no var0 the var0
property raises ValueError; with no argument and var0 set, var0 is used as the
argument; a PhysicalQuantity argument goes through the units check; any other
argument is treated as a bare scalar evaluation point. -/
def dpqCall (d : DPQ) (var : Option (PQ ⊕ ℚ)) : Except PyErr PQ :=
  match var with
  | none =>
    match d.var0 with
    | none => .error .valueError
    | some v0 => dpqCallPQ d v0
  | some (.inl q) => dpqCallPQ d q
  | some (.inr x) => dpqEvalAt d x

/-- The float value of np.pi: 884279719003555 over 2 to the 48. -/
def npPi : ℚ := 884279719003555 / 281474976710656

/-- Units.from_string applied to the literal V/A. -/
def uVA : Units := ⟨[("V", 1), ("A", -1)], "Electrical"⟩

/-- Units.from_string applied to the literal Hz. -/
def uHz : Units := ⟨[("Hz", 1)], "Electrical"⟩

/-- Units.from_string applied to the literal rad/s. -/
def uRadPerS : Units := ⟨[("rad", 1), ("s", -1)], "Electrical"⟩

/-- The variable units an Impedance passes to the base constructor: the
frequency_units string parsed by Units.from_any. -/
def freqUnitsU (fu : String) : Units := if fu = "Hz" then uHz else uRadPerS

/-- The state of a freshly constructed Impedance: the frequency attribute,
which only the Hz branch of __init__ assigns, and the dependant quantity
state of the base class. -/
structure ImpState where
  frequencyAttr : Option ℚ
  z : DPQ
  deriving DecidableEq, Repr

/-- The base constructor call at the end of Impedance.__init__: units fixed to
V/A, var_symbol s, tolerance as given; a scalar var0 becomes
PhysicalQuantity.from_value(var0, var_units), which can itself raise inside
Prefix.from_number; var0 None stays None. -/
def impedanceFinish (num den : List ℚ) (var0f : Option ℚ) (fu : String)
    (freqAttr : Option ℚ) : Except PyErr ImpState :=
  match var0f with
  | none => .ok ⟨freqAttr, ⟨num, den, uVA, none, GLOBAL_TOLERANCE⟩⟩
  | some fr =>
    match pqFromValue fr (freqUnitsU fu) with
    | some q => .ok ⟨freqAttr, ⟨num, den, uVA, some q, GLOBAL_TOLERANCE⟩⟩
    | none => .error .valueError

/-- Impedance.__init__.  The Python parameter default is frequency=1000, so a
call that omits the argument corresponds to passing some 1000 here, and an
explicit frequency=None to none.  The Hz branch assigns the attribute
self.frequency = frequency if frequency is not None else 1000 but passes the
original frequency on as var0; the rad/s branch rebinds the local frequency
to 2000 pi only when it was None and assigns no attribute; any other
frequency_units raises ValueError. -/
def impedanceInit (num den : List ℚ) (frequency : Option ℚ) (frequency_units : String) :
    Except PyErr ImpState :=
  if frequency_units = "Hz" then
    impedanceFinish num den frequency frequency_units (some (frequency.getD 1000))
  else if frequency_units = "rad/s" then
    impedanceFinish num den (some (frequency.getD (2000 * npPi))) frequency_units none
  else .error .valueError

/-- np.argmin on a boolean array: the index of the first False entry when one
exists, otherwise index 0 of an all-True array. -/
def argminBool (l : List Bool) : Nat :=
  if l.any (fun b => !b) then l.findIdx (fun b => !b) else 0

/-- The coefficient cleanup prefix of Impedance.simplify: first every
coefficient of magnitude at most tol is zeroed (np.where on abs); then
numzeros = np.argmin(num <= tol) and denzeros = np.argmin(den <= tol) are
computed on the zeroed arrays without taking absolute values, and both arrays
are shifted down by the minimum of the two counts. -/
def impSimplifyStrip (num den : List ℚ) (tol : ℚ) : List ℚ × List ℚ :=
  let num1 := num.map (fun c => if |c| ≤ tol then 0 else c)
  let den1 := den.map (fun c => if |c| ≤ tol then 0 else c)
  let numzeros := argminBool (num1.map (fun c => decide (c ≤ tol)))
  let denzeros := argminBool (den1.map (fun c => decide (c ≤ tol)))
  let commonzeros := min numzeros denzeros
  (num1.drop commonzeros, den1.drop commonzeros)

/-- Units.from_string applied to kg. -/
def uKg : Units := ⟨[("kg", 1)], "Electrical"⟩

/-- Units.from_string applied to m. -/
def uM : Units := ⟨[("m", 1)], "Electrical"⟩

/-- The empty magnitude: factor one. -/
def basePfx : Pfx := ⟨"", 1, ""⟩

/-- PhysicalQuantity.from_value(1, kg). -/
def pq1kg : PQ := ⟨1, basePfx, uKg⟩

/-- PhysicalQuantity.from_value(1, m). -/
def pq1m : PQ := ⟨1, basePfx, uM⟩

/-! ### List and dict helper lemmas -/

theorem getD_map_range (f : Nat → ℚ) (n k : Nat) :
    ((List.range n).map f).getD k 0 = if k < n then f k else 0 := by
  by_cases h : k < n
  · rw [List.getD_eq_getElem]
    · simp [h]
    · simpa using h
  · rw [List.getD_eq_default]
    · simp [h]
    · simpa using Nat.le_of_not_lt h

theorem dlookup_isSome_iff {α : Type} (l : List (String × α)) (k : String) :
    (dlookup l k).isSome = true ↔ k ∈ l.map Prod.fst := by
  induction l with
  | nil => simp [dlookup]
  | cons kv t ih =>
    by_cases h : kv.1 = k
    · simp [dlookup, h]
    · simp [dlookup, h, ih, Ne.symm h]

theorem dlookup_eq_none_iff {α : Type} (l : List (String × α)) (k : String) :
    dlookup l k = none ↔ k ∉ l.map Prod.fst := by
  rw [← dlookup_isSome_iff]
  cases dlookup l k <;> simp

theorem dlookup_mapPairs (ks : List String) (g : String → Int) (k : String) :
    dlookup (ks.map (fun k2 => (k2, g k2))) k = if k ∈ ks then some (g k) else none := by
  induction ks with
  | nil => simp [dlookup]
  | cons a t ih =>
    by_cases h : a = k
    · simp [dlookup, h]
    · simp [dlookup, h, ih, Ne.symm h]

theorem dlookup_map_neg (l : List (String × Int)) (k : String) :
    dlookup (l.map (fun kv => (kv.1, -kv.2))) k = (dlookup l k).map (fun v => -v) := by
  induction l with
  | nil => rfl
  | cons kv t ih =>
    by_cases h : kv.1 = k <;> simp [dlookup, h, ih]

theorem getDz_map_neg (l : List (String × Int)) (k : String) :
    getDz (l.map (fun kv => (kv.1, -kv.2))) k = - getDz l k := by
  unfold getDz
  rw [dlookup_map_neg]
  cases dlookup l k <;> simp

theorem dictEqb_nil_iff (l : List (String × Int)) : dictEqb l [] = true ↔ l = [] := by
  cases l with
  | nil => simp [dictEqb]
  | cons kv t => simp [dictEqb, dlookup]

/-! ### Polynomial bridge lemmas -/

theorem toPoly_coeff (c : List ℚ) (k : Nat) : (toPoly c).coeff k = c.getD k 0 := by
  unfold toPoly
  rw [Polynomial.finset_sum_coeff]
  simp only [Polynomial.coeff_C_mul, Polynomial.coeff_X_pow, mul_ite, mul_one, mul_zero]
  rw [Finset.sum_ite_eq]
  by_cases h : k < c.length
  · simp [h]
  · rw [List.getD_eq_default _ _ (Nat.le_of_not_lt h)]
    simp [h]

theorem toPoly_eq_of_getD (c1 c2 : List ℚ) (h : ∀ k, c1.getD k 0 = c2.getD k 0) :
    toPoly c1 = toPoly c2 :=
  Polynomial.ext fun k => by rw [toPoly_coeff, toPoly_coeff, h]

theorem polyeval_eq_eval (c : List ℚ) (x : ℚ) : polyeval c x = (toPoly c).eval x := by
  unfold polyeval toPoly
  rw [Polynomial.eval_finset_sum]
  simp

theorem convCoeff_eq_zero_of_ge (c1 c2 : List ℚ) (k : Nat)
    (h : c1.length + c2.length ≤ k) : convCoeff c1 c2 k = 0 := by
  unfold convCoeff
  apply Finset.sum_eq_zero
  intro i _
  rcases Nat.lt_or_ge i c1.length with h1 | h1
  · have h2 : c2.length ≤ k - i := by omega
    rw [List.getD_eq_default _ _ h2, mul_zero]
  · rw [List.getD_eq_default _ _ h1, zero_mul]

theorem convFull_getD (c1 c2 : List ℚ) (k : Nat) :
    (convFull c1 c2).getD k 0 = convCoeff c1 c2 k := by
  unfold convFull
  rw [getD_map_range]
  by_cases h : k < c1.length + c2.length
  · simp [h]
  · simp [h, convCoeff_eq_zero_of_ge c1 c2 k (Nat.le_of_not_lt h)]

theorem toPoly_convFull (c1 c2 : List ℚ) :
    toPoly (convFull c1 c2) = toPoly c1 * toPoly c2 := by
  apply Polynomial.ext
  intro k
  rw [toPoly_coeff, convFull_getD, Polynomial.coeff_mul,
    Finset.Nat.sum_antidiagonal_eq_sum_range_succ_mk]
  unfold convCoeff
  apply Finset.sum_congr rfl
  intro i _
  rw [toPoly_coeff, toPoly_coeff]

theorem dropTrailingZeros_split (l : List ℚ) :
    ∃ z, l = dropTrailingZeros l ++ z ∧ ∀ a ∈ z, a = 0 := by
  refine ⟨(l.reverse.takeWhile (fun a => decide (a = 0))).reverse, ?_, ?_⟩
  · conv_lhs => rw [← l.reverse_reverse,
      ← List.takeWhile_append_dropWhile (p := fun a => decide (a = 0)) (l := l.reverse)]
    rw [List.reverse_append]
    rfl
  · intro a ha
    have := List.mem_takeWhile_imp (List.mem_reverse.mp ha)
    simpa using this

theorem getD_append_zeros (r z : List ℚ) (hz : ∀ a ∈ z, a = 0) (k : Nat) :
    (r ++ z).getD k 0 = r.getD k 0 := by
  rcases Nat.lt_or_ge k r.length with h | h
  · exact List.getD_append r z 0 k h
  · rw [List.getD_append_right r z 0 k h, List.getD_eq_default r 0 h]
    rcases Nat.lt_or_ge (k - r.length) z.length with h2 | h2
    · rw [List.getD_eq_getElem z 0 h2]
      exact hz _ (List.getElem_mem h2)
    · exact List.getD_eq_default z 0 h2

theorem polymul_some_toPoly (c1 c2 r : List ℚ) (h : polymul c1 c2 = some r) :
    toPoly r = toPoly c1 * toPoly c2 := by
  unfold polymul at h
  by_cases hall : (convFull c1 c2).all (fun a => decide (a = 0))
  · simp [hall] at h
  · simp only [hall, Bool.false_eq_true, if_false, Option.some.injEq] at h
    subst h
    rw [← toPoly_convFull]
    obtain ⟨z, hz1, hz2⟩ := dropTrailingZeros_split (convFull c1 c2)
    apply toPoly_eq_of_getD
    intro k
    conv_rhs => rw [hz1]
    rw [getD_append_zeros _ _ hz2]

theorem all_zero_iff_toPoly (l : List ℚ) :
    l.all (fun a => decide (a = 0)) = true ↔ toPoly l = 0 := by
  rw [List.all_eq_true]
  constructor
  · intro h
    apply Polynomial.ext
    intro k
    rw [toPoly_coeff]
    simp only [Polynomial.coeff_zero]
    rcases Nat.lt_or_ge k l.length with h2 | h2
    · rw [List.getD_eq_getElem l 0 h2]
      exact of_decide_eq_true (h _ (List.getElem_mem h2))
    · exact List.getD_eq_default l 0 h2
  · intro h a ha
    obtain ⟨k, hk, rfl⟩ := List.getElem_of_mem ha
    rw [decide_eq_true_eq]
    have h2 := toPoly_coeff l k
    rw [h, Polynomial.coeff_zero] at h2
    rw [List.getD_eq_getElem l 0 hk] at h2
    exact h2.symm

theorem polymul_none_iff (c1 c2 : List ℚ) :
    polymul c1 c2 = none ↔ toPoly c1 * toPoly c2 = 0 := by
  unfold polymul
  rw [← toPoly_convFull, ← all_zero_iff_toPoly]
  by_cases hall : (convFull c1 c2).all (fun a => decide (a = 0)) <;> simp [hall]

theorem polyadd_toPoly (c1 c2 : List ℚ) :
    toPoly (polyadd c1 c2) = toPoly c1 + toPoly c2 := by
  apply Polynomial.ext
  intro k
  rw [Polynomial.coeff_add, toPoly_coeff, toPoly_coeff, toPoly_coeff]
  unfold polyadd
  rw [getD_map_range]
  by_cases h : k < max c1.length c2.length
  · simp [h]
  · have h1 : c1.length ≤ k := le_trans (le_max_left _ _) (Nat.le_of_not_lt h)
    have h2 : c2.length ≤ k := le_trans (le_max_right _ _) (Nat.le_of_not_lt h)
    rw [if_neg h, List.getD_eq_default _ _ h1, List.getD_eq_default _ _ h2, add_zero]

theorem polysub_toPoly (c1 c2 : List ℚ) :
    toPoly (polysub c1 c2) = toPoly c1 - toPoly c2 := by
  apply Polynomial.ext
  intro k
  rw [Polynomial.coeff_sub, toPoly_coeff, toPoly_coeff, toPoly_coeff]
  unfold polysub
  rw [getD_map_range]
  by_cases h : k < max c1.length c2.length
  · simp [h]
  · have h1 : c1.length ≤ k := le_trans (le_max_left _ _) (Nat.le_of_not_lt h)
    have h2 : c2.length ≤ k := le_trans (le_max_right _ _) (Nat.le_of_not_lt h)
    rw [if_neg h, List.getD_eq_default _ _ h1, List.getD_eq_default _ _ h2, sub_zero]

theorem polymul_eval (c1 c2 r : List ℚ) (h : polymul c1 c2 = some r) (x : ℚ) :
    polyeval r x = polyeval c1 x * polyeval c2 x := by
  rw [polyeval_eq_eval, polyeval_eq_eval, polyeval_eq_eval,
    polymul_some_toPoly c1 c2 r h, Polynomial.eval_mul]

theorem polyadd_eval (c1 c2 : List ℚ) (x : ℚ) :
    polyeval (polyadd c1 c2) x = polyeval c1 x + polyeval c2 x := by
  rw [polyeval_eq_eval, polyeval_eq_eval, polyeval_eq_eval, polyadd_toPoly,
    Polynomial.eval_add]

theorem polysub_eval (c1 c2 : List ℚ) (x : ℚ) :
    polyeval (polysub c1 c2) x = polyeval c1 x - polyeval c2 x := by
  rw [polyeval_eq_eval, polyeval_eq_eval, polyeval_eq_eval, polysub_toPoly,
    Polynomial.eval_sub]

/-! ### Units arithmetic helper lemmas -/

theorem getDz_unionMap (a b : List (String × Int)) (g : String → Int) (k : String) :
    getDz ((unionKeys a b).map (fun k2 => (k2, g k2))) k =
      if k ∈ unionKeys a b then g k else 0 := by
  unfold getDz
  rw [dlookup_mapPairs]
  by_cases h : k ∈ unionKeys a b <;> simp [h]

theorem unionKeys_eq_nil_left {a b : List (String × Int)} (h : unionKeys a b = []) :
    a = [] := by
  unfold unionKeys at h
  rcases List.append_eq_nil.mp h with ⟨h1, _⟩
  exact List.map_eq_nil_iff.mp h1

theorem fromNumberPfx_pos (x : ℚ) (p : Pfx) (h : fromNumberPfx x = some p) : 0 < p.f := by
  unfold fromNumberPfx at h
  obtain ⟨ys, hys⟩ := List.getLast?_eq_some_iff.mp h
  have hp : p ∈ pfxTable.filter (fun q => decide (0 ≤ x - q.f)) := by
    rw [hys]
    exact List.mem_append_right _ (List.mem_singleton_self p)
  have hmem : p ∈ pfxTable := List.mem_of_mem_filter hp
  simp only [pfxTable, List.mem_cons, List.not_mem_nil, or_false] at hmem
  rcases hmem with rfl | rfl | rfl | rfl | rfl | rfl | rfl | rfl | rfl | rfl | rfl | rfl |
    rfl | rfl | rfl | rfl | rfl <;> norm_num

theorem asBase_receiver (u : Units) (ctx : Option String) (ts : CtxTables) :
    (asBase u ctx ts).1 = setContext u ctx := rfl

theorem usimplify_receiver (u : Units) (ctx : Option String) (ts : CtxTables)
    (ss : SubsTables) : (usimplify u ctx ts ss).1 = setContext u ctx := by
  unfold usimplify
  split
  · rfl
  · split <;> rfl

theorem dpqEvalAt_ok (d : DPQ) (val : ℚ) (r : PQ) (h : dpqEvalAt d val = .ok r) :
    r.u = d.u ∧ pqValue r = polyeval d.num val / polyeval d.den val := by
  unfold dpqEvalAt at h
  split at h
  · rename_i q hq
    rw [Except.ok.injEq] at h
    subst h
    unfold pqFromValue vpFromNumber at hq
    rw [Option.map_map] at hq
    rw [Option.map_eq_some'] at hq
    obtain ⟨p, hp, hq2⟩ := hq
    subst hq2
    refine ⟨rfl, ?_⟩
    have hf : p.f ≠ 0 := ne_of_gt (fromNumberPfx_pos _ p hp)
    show polyeval d.num val / polyeval d.den val / p.f * p.f = _
    rw [div_mul_cancel₀ _ hf]
  · simp at h

/-! ### Claim C1 -/

/-- C1: counterexample.  On the code, for u the unit m, u times its inverse and
u divided by itself are not equal to the unitless Units: multiply and divide
keep zero exponent entries and Units equality is structural dict equality, so
the group law of the claim fails. -/
theorem C1_counterexample :
    ueqb (Units.mul uM (Units.invert uM)) unitlessU = false ∧
    ueqb (Units.div uM uM) unitlessU = false := by
  constructor <;> rfl

/-- C1 (amended): multiply and divide combine exponent maps pointwise over the
union of symbols but keep zero results; u times u.invert() and u divided by u
produce maps in which every stored exponent is zero - pointwise equal, as
exponent functions, to the unitless Units - but the results compare equal to
the unitless Units only when u itself is unitless, because Units equality is
structural equality of the exponent dicts. -/
theorem C1_units_group_law_amended (u : Units) :
    (∀ k, getDz (Units.mul u (Units.invert u)).s k = 0) ∧
    (∀ k, getDz (Units.div u u).s k = 0) ∧
    (∀ kv ∈ (Units.mul u (Units.invert u)).s, kv.2 = 0) ∧
    (∀ kv ∈ (Units.div u u).s, kv.2 = 0) ∧
    (ueqb (Units.mul u (Units.invert u)) unitlessU = true ↔ u.s = []) ∧
    (ueqb (Units.div u u) unitlessU = true ↔ u.s = []) := by
  have hmulz : ∀ k, getDz u.s k + getDz (Units.invert u).s k = 0 := by
    intro k
    have : (Units.invert u).s = u.s.map (fun kv => (kv.1, -kv.2)) := rfl
    rw [this, getDz_map_neg]
    omega
  have hsubz : ∀ k : String, getDz u.s k - getDz u.s k = 0 := by
    intro k
    omega
  refine ⟨?_, ?_, ?_, ?_, ?_, ?_⟩
  · intro k
    show getDz ((unionKeys u.s (Units.invert u).s).map
      (fun k2 => (k2, getDz u.s k2 + getDz (Units.invert u).s k2))) k = 0
    rw [getDz_unionMap]
    split
    · exact hmulz k
    · rfl
  · intro k
    show getDz ((unionKeys u.s u.s).map
      (fun k2 => (k2, getDz u.s k2 - getDz u.s k2))) k = 0
    rw [getDz_unionMap]
    split
    · exact hsubz k
    · rfl
  · intro kv hkv
    obtain ⟨k, _, rfl⟩ := List.mem_map.mp hkv
    exact hmulz k
  · intro kv hkv
    obtain ⟨k, _, rfl⟩ := List.mem_map.mp hkv
    exact hsubz k
  · show dictEqb ((unionKeys u.s (Units.invert u).s).map _) [] = true ↔ u.s = []
    rw [dictEqb_nil_iff]
    constructor
    · intro h
      exact unionKeys_eq_nil_left (List.map_eq_nil_iff.mp h)
    · intro h
      show ((unionKeys u.s (Units.invert u).s).map _) = []
      have : (Units.invert u).s = u.s.map (fun kv => (kv.1, -kv.2)) := rfl
      rw [this, h]
      rfl
  · show dictEqb ((unionKeys u.s u.s).map _) [] = true ↔ u.s = []
    rw [dictEqb_nil_iff]
    constructor
    · intro h
      exact unionKeys_eq_nil_left (List.map_eq_nil_iff.mp h)
    · intro h
      show ((unionKeys u.s u.s).map _) = []
      rw [h]
      rfl

/-! ### Claim C6 -/

/-- C6: counterexample.  Two quantities in kg whose true values differ by
1e-16, less than the default tolerance 1e-15, still compare unequal: the code
compares true values exactly, with no tolerance. -/
theorem C6_counterexample :
    pqEqB ⟨1, basePfx, uKg⟩ ⟨1 + 1 / 10 ^ 16, basePfx, uKg⟩ = false ∧
    ueqb uKg uKg = true ∧
    |pqValue ⟨1, basePfx, uKg⟩ - pqValue ⟨1 + 1 / 10 ^ 16, basePfx, uKg⟩|
      < GLOBAL_TOLERANCE := by
  refine ⟨?_, rfl, ?_⟩
  · norm_num [pqEqB, pqValue, ueqb, dictEqb, dlookup, basePfx, uKg]
  · rw [abs_lt]
    constructor <;> norm_num [pqValue, basePfx, GLOBAL_TOLERANCE]

/-- C6 (amended): equality of two PhysicalQuantity values returns false when
their Units dicts differ and otherwise compares the true numeric values
(mantissa times factor) exactly; no tolerance is involved. -/
theorem C6_pq_eq_amended (a b : PQ) :
    pqEqB a b = true ↔ ueqb a.u b.u = true ∧ pqValue a = pqValue b := by
  unfold pqEqB
  cases h : ueqb a.u b.u <;> simp [h]

/-! ### Claim C7 -/

/-- C7: counterexample.  The process default of the strictness toggle is False,
the permissive setting, and adding 1 kg and 1 m still fails with
UnitsMissmatchException: no toggle enables the logged coercion between two
PhysicalQuantity operands claimed by the spec. -/
theorem C7_counterexample :
    ERROR_ON_UNIT_MISSMATCH_DEFAULT = false ∧
    pqAdd pq1kg (.inl pq1m) = .error .unitsMismatch := by
  exact ⟨rfl, rfl⟩

/-- C7 (amended): adding or subtracting two PhysicalQuantity values whose Units
are not equal always fails with UnitsMissmatchException; the operators never
consult the unit-mismatch toggle, and the logged coercion path exists only for
operands that are not PhysicalQuantity instances. -/
theorem C7_pq_add_mismatch_amended (a b : PQ) (h : ueqb a.u b.u = false) :
    pqAdd a (.inl b) = .error .unitsMismatch ∧
    pqSub a (.inl b) = .error .unitsMismatch := by
  simp [pqAdd, pqSub, h]

/-- C7: witness for the amended theorem at 1 kg and 1 m. -/
theorem C7_witness :
    pqAdd pq1kg (.inl pq1m) = .error .unitsMismatch ∧
    pqSub pq1kg (.inl pq1m) = .error .unitsMismatch :=
  C7_pq_add_mismatch_amended pq1kg pq1m rfl

/-! ### Claim C9 -/

/-- C9: counterexample.  Calling as_base with an explicit context argument
mutates the receiver: its context tag changes from Electrical to Mechanics,
so the receiver is no longer the Units it was; simplify mutates it the same
way.  The claim that an explicit context argument does not modify the
receiver is false. -/
theorem C9_counterexample :
    (asBase ⟨[("m", 1)], "Electrical"⟩ (some "Mechanics") (fun _ => [])).1 ≠
      (⟨[("m", 1)], "Electrical"⟩ : Units) ∧
    (usimplify ⟨[("m", 1)], "Electrical"⟩ (some "Mechanics") (fun _ => [])
      (fun _ => [])).1.context = "Mechanics" := by
  constructor
  · decide
  · rfl

/-- C9 (amended): as_base and simplify leave the receiver unchanged when no
context argument is passed, and always leave the receiver exponent mapping
unchanged; but when an explicit context argument is passed they update the
receiver context tag to that argument, mutating the receiver. -/
theorem C9_units_mutation_amended (u : Units) (ts : CtxTables) (ss : SubsTables)
    (c : String) :
    (asBase u none ts).1 = u ∧
    (usimplify u none ts ss).1 = u ∧
    (asBase u (some c) ts).1.s = u.s ∧ (asBase u (some c) ts).1.context = c ∧
    (usimplify u (some c) ts ss).1.s = u.s ∧
    (usimplify u (some c) ts ss).1.context = c := by
  refine ⟨rfl, ?_, rfl, rfl, ?_, ?_⟩
  · rw [usimplify_receiver]
    rfl
  · rw [usimplify_receiver]
    rfl
  · rw [usimplify_receiver]
    rfl

/-! ### Claim C2 -/

/-- C2: evaluation of Prefix.from_number on the boundary cases of the claim and
on the failing inputs.  The positive boundary cases behave as claimed, but
from_number uses pnum without an absolute value, so for -1000 no factor
qualifies and np.max of an empty selection raises ValueError (here: none),
although the claim - and the repo test test_from_number_negatives - expect the
symbol k; a positive number below every factor likewise raises instead of
falling back to the smallest factor. -/
theorem C2_prefix_from_number_eval :
    (fromNumberPfx 999).map Pfx.s = some "" ∧
    (fromNumberPfx 1000).map Pfx.s = some "k" ∧
    (fromNumberPfx 1001).map Pfx.s = some "k" ∧
    (fromNumberPfx (15 / 100)).map Pfx.s = some "m" ∧
    fromNumberPfx (-1000) = none ∧
    fromNumberPfx (1 / 10 ^ 30) = none := by
  refine ⟨?_, ?_, ?_, ?_, ?_, ?_⟩ <;>
    norm_num [fromNumberPfx, pfxTable, List.filter]

/-! ### Claim C5 -/

/-- C5: evaluation of the coefficient cleanup prefix of Impedance.simplify.
On num = [-5, 3], den = [0, 2] with the default tolerance, the zero detection
num <= tol without an absolute value counts the nonzero coefficient -5 as a
zero, and the common shift removes it together with the true zero of den:
the result is ([3], [2]), dropping a nonzero coefficient, against the claim.
On the all-nonnegative pair num = [0, 1], den = [0, 2] the step behaves as
claimed, stripping exactly the shared zero. -/
theorem C5_impedance_strip_eval :
    impSimplifyStrip [-5, 3] [0, 2] GLOBAL_TOLERANCE = ([3], [2]) ∧
    impSimplifyStrip [0, 1] [0, 2] GLOBAL_TOLERANCE = ([1], [2]) := by
  constructor <;>
    norm_num [impSimplifyStrip, argminBool, GLOBAL_TOLERANCE, abs_le,
      List.findIdx, List.findIdx.go]

/-! ### Claim C8 -/

/-- C8: evaluation of Impedance.__init__.  With frequency omitted (the Python
parameter default 1000) and frequency_units rad/s, the default evaluation
point var0 is 1000 rad/s, not 2000 pi as claimed: the parameter default makes
frequency never None, so the 2000 pi branch is unreachable by omission.  With
Hz and frequency omitted the default is 1000 as claimed; but an explicit
frequency=None with Hz sets the frequency attribute to 1000 while leaving
var0 unset.  An unknown frequency_units raises ValueError as claimed. -/
theorem C8_impedance_frequency_eval :
    impedanceInit [1] [1] (some 1000) "rad/s" =
      .ok ⟨none, ⟨[1], [1], uVA, some ⟨1, ⟨"k", 10 ^ 3, "kilo"⟩, uRadPerS⟩,
        GLOBAL_TOLERANCE⟩⟩ ∧
    impedanceInit [1] [1] (some 1000) "Hz" =
      .ok ⟨some 1000, ⟨[1], [1], uVA, some ⟨1, ⟨"k", 10 ^ 3, "kilo"⟩, uHz⟩,
        GLOBAL_TOLERANCE⟩⟩ ∧
    impedanceInit [1] [1] none "Hz" =
      .ok ⟨some 1000, ⟨[1], [1], uVA, none, GLOBAL_TOLERANCE⟩⟩ ∧
    impedanceInit [1] [1] (some 5) "s" = .error .valueError := by
  have h1 : ("rad/s" : String) ≠ "Hz" := by decide
  have h2 : ("s" : String) ≠ "Hz" := by decide
  have h3 : ("s" : String) ≠ "rad/s" := by decide
  refine ⟨?_, ?_, ?_, ?_⟩ <;>
    norm_num [impedanceInit, impedanceFinish, pqFromValue, vpFromNumber,
      fromNumberPfx, pfxTable, List.filter, freqUnitsU, h1, h2, h3]

/-! ### Claim C3 -/

/-- C3: addition and subtraction of two DependantPhysicalQuantity values with
equal Units are computed by cross-multiplication: the result denominator
represents den1 times den2 and the result numerator represents num1 times den2
plus or minus den1 times num2 (as polynomial functions, polymul truncating
trailing zero coefficients), the left operand var0 is retained, and the result
carries the left Units; when the Units differ both operations fail with
UnitsMissmatchException. -/
theorem C3_dpq_add_sub_cross_mul :
    (∀ a b : DPQ, ueqb a.u b.u = false →
      dpqAdd a b = .error .unitsMismatch ∧ dpqSub a b = .error .unitsMismatch) ∧
    (∀ a b r, dpqAdd a b = .ok r →
      r.u = a.u ∧ r.var0 = a.var0 ∧
      (∀ x, polyeval r.den x = polyeval a.den x * polyeval b.den x) ∧
      (∀ x, polyeval r.num x =
        polyeval a.num x * polyeval b.den x + polyeval a.den x * polyeval b.num x)) ∧
    (∀ a b r, dpqSub a b = .ok r →
      r.u = a.u ∧ r.var0 = a.var0 ∧
      (∀ x, polyeval r.den x = polyeval a.den x * polyeval b.den x) ∧
      (∀ x, polyeval r.num x =
        polyeval a.num x * polyeval b.den x - polyeval a.den x * polyeval b.num x)) := by
  refine ⟨?_, ?_, ?_⟩
  · intro a b h
    constructor <;> simp [dpqAdd, dpqSub, h]
  · intro a b r h
    unfold dpqAdd at h
    split at h
    · simp at h
    · split at h
      · simp at h
      · rename_i nd hnd
        split at h
        · simp at h
        · rename_i na hna
          split at h
          · simp at h
          · rename_i nb hnb
            rw [Except.ok.injEq] at h
            subst h
            refine ⟨rfl, rfl, fun x => polymul_eval _ _ _ hnd x, fun x => ?_⟩
            rw [polyadd_eval, polymul_eval _ _ _ hna x, polymul_eval _ _ _ hnb x]
  · intro a b r h
    unfold dpqSub at h
    split at h
    · simp at h
    · split at h
      · simp at h
      · rename_i nd hnd
        split at h
        · simp at h
        · rename_i na hna
          split at h
          · simp at h
          · rename_i nb hnb
            rw [Except.ok.injEq] at h
            subst h
            refine ⟨rfl, rfl, fun x => polymul_eval _ _ _ hnd x, fun x => ?_⟩
            rw [polysub_eval, polymul_eval _ _ _ hna x, polymul_eval _ _ _ hnb x]

/-- C3: witness.  A concrete addition 1/1 + 2/1 in V/A produces 3/1, its
numerator evaluates per the cross-multiplication formula, and an addition
of quantities in kg and m fails with UnitsMissmatchException. -/
theorem C3_witness :
    dpqAdd ⟨[1], [1], uVA, none, GLOBAL_TOLERANCE⟩ ⟨[2], [1], uVA, none, GLOBAL_TOLERANCE⟩ =
      .ok ⟨[3], [1], uVA, none, GLOBAL_TOLERANCE⟩ ∧
    polyeval [3] 7 = polyeval [1] 7 * polyeval [1] 7 + polyeval [1] 7 * polyeval [2] 7 ∧
    dpqAdd ⟨[1], [1], uKg, none, GLOBAL_TOLERANCE⟩ ⟨[1], [1], uM, none, GLOBAL_TOLERANCE⟩ =
      .error .unitsMismatch := by
  have hc0 : convCoeff [(1 : ℚ)] [(1 : ℚ)] 0 = 1 := by
    simp [convCoeff, Finset.sum_range_succ]
  have hc1 : convCoeff [(1 : ℚ)] [(1 : ℚ)] 1 = 0 := by
    simp [convCoeff, Finset.sum_range_succ, List.getD]
  have hd0 : convCoeff [(1 : ℚ)] [(2 : ℚ)] 0 = 2 := by
    simp [convCoeff, Finset.sum_range_succ]
  have hd1 : convCoeff [(1 : ℚ)] [(2 : ℚ)] 1 = 0 := by
    simp [convCoeff, Finset.sum_range_succ, List.getD]
  have h11 : polymul [(1 : ℚ)] [(1 : ℚ)] = some [1] := by
    show (if (convFull [(1 : ℚ)] [(1 : ℚ)]).all (fun a => decide (a = 0)) then none
      else some (dropTrailingZeros (convFull [(1 : ℚ)] [(1 : ℚ)]))) = some [1]
    have hfull : convFull [(1 : ℚ)] [(1 : ℚ)] = [1, 0] := by
      simp [convFull, show List.range 2 = [0, 1] from rfl, hc0, hc1]
    rw [hfull]
    norm_num [dropTrailingZeros, List.dropWhile]
  have h12 : polymul [(1 : ℚ)] [(2 : ℚ)] = some [2] := by
    show (if (convFull [(1 : ℚ)] [(2 : ℚ)]).all (fun a => decide (a = 0)) then none
      else some (dropTrailingZeros (convFull [(1 : ℚ)] [(2 : ℚ)]))) = some [2]
    have hfull : convFull [(1 : ℚ)] [(2 : ℚ)] = [2, 0] := by
      simp [convFull, show List.range 2 = [0, 1] from rfl, hd0, hd1]
    rw [hfull]
    norm_num [dropTrailingZeros, List.dropWhile]
  have hok : dpqAdd ⟨[1], [1], uVA, none, GLOBAL_TOLERANCE⟩
      ⟨[2], [1], uVA, none, GLOBAL_TOLERANCE⟩ =
      .ok ⟨[3], [1], uVA, none, GLOBAL_TOLERANCE⟩ := by
    norm_num [dpqAdd, show ueqb uVA uVA = true from rfl, h11, h12, polyadd,
      show List.range 1 = [0] from rfl, List.getD]
  exact ⟨hok, (C3_dpq_add_sub_cross_mul.2.1 _ _ _ hok).2.2.2 7,
    (C3_dpq_add_sub_cross_mul.1 ⟨[1], [1], uKg, none, GLOBAL_TOLERANCE⟩
      ⟨[1], [1], uM, none, GLOBAL_TOLERANCE⟩ (by rfl)).1⟩

/-! ### Claim C10 -/

/-- C10: polymul is partial on zero polynomials: whenever the product of the
two coefficient arrays is the zero polynomial, polymul raises (none) instead
of returning a zero coefficient array, and it never returns a result whose
product polynomial is zero; consequently DependantPhysicalQuantity
multiplication fails with the ValueError from np.max whenever the numerator
convolution or the denominator convolution is identically zero. -/
theorem C10_polymul_zero :
    (∀ c1 c2 : List ℚ, toPoly c1 * toPoly c2 = 0 → polymul c1 c2 = none) ∧
    (∀ c1 c2 r : List ℚ, polymul c1 c2 = some r → toPoly c1 * toPoly c2 ≠ 0) ∧
    (∀ a b : DPQ, toPoly a.num * toPoly b.num = 0 → dpqMul a b = .error .valueError) ∧
    (∀ a b : DPQ, toPoly a.den * toPoly b.den = 0 → dpqMul a b = .error .valueError) := by
  refine ⟨?_, ?_, ?_, ?_⟩
  · intro c1 c2 h
    exact (polymul_none_iff c1 c2).mpr h
  · intro c1 c2 r h hz
    rw [(polymul_none_iff c1 c2).mpr hz] at h
    simp at h
  · intro a b h
    simp [dpqMul, (polymul_none_iff a.num b.num).mpr h]
  · intro a b h
    cases hn : polymul a.num b.num with
    | none => simp [dpqMul, hn]
    | some nn => simp [dpqMul, hn, (polymul_none_iff a.den b.den).mpr h]

/-- C10: witness.  polymul applied to the all-zero array [0] and to [1]
raises (none), and the corresponding dependant-quantity multiplication fails
with ValueError. -/
theorem C10_witness :
    polymul [(0 : ℚ)] [(1 : ℚ)] = none ∧
    dpqMul ⟨[0], [1], uVA, none, GLOBAL_TOLERANCE⟩
      ⟨[1], [1], uVA, none, GLOBAL_TOLERANCE⟩ = .error .valueError := by
  have h0 : toPoly [(0 : ℚ)] * toPoly [(1 : ℚ)] = 0 := by
    have hz : toPoly [(0 : ℚ)] = 0 := by
      apply Polynomial.ext
      intro k
      rw [toPoly_coeff]
      cases k <;> simp [List.getD]
    rw [hz, zero_mul]
  exact ⟨C10_polymul_zero.1 [0] [1] h0, C10_polymul_zero.2.2.1 _ _ h0⟩

/-! ### Claim C4 -/

/-- C4: evaluating with no argument uses var0 and raises ValueError (the
InvalidState failure of the spec) when var0 was never set; an argument
carrying units raises UnitsMissmatchException when var0 is set and its units
differ; a successful evaluation returns a plain PhysicalQuantity tagged with
this instance Units whose true value is num(x)/den(x).  Final conjunct,
the failing input: evaluating num = [-1], den = [1] at var0 = 1 yields the
value -1, on which PhysicalQuantity.from_value raises ValueError inside
Prefix.from_number (no absolute value taken), so no PhysicalQuantity is
returned although the claim says one is. -/
theorem C4_dpq_call_spec :
    (∀ d : DPQ, d.var0 = none → dpqCall d none = .error .valueError) ∧
    (∀ (d : DPQ) (v0 q : PQ), d.var0 = some v0 → ueqb v0.u q.u = false →
      dpqCall d (some (.inl q)) = .error .unitsMismatch) ∧
    (∀ (d : DPQ) (q r : PQ), dpqCall d (some (.inl q)) = .ok r →
      r.u = d.u ∧ pqValue r = polyeval d.num (pqValue q) / polyeval d.den (pqValue q)) ∧
    (∀ (d : DPQ) (x : ℚ) (r : PQ), dpqCall d (some (.inr x)) = .ok r →
      r.u = d.u ∧ pqValue r = polyeval d.num x / polyeval d.den x) ∧
    (∀ (d : DPQ) (v0 : PQ), d.var0 = some v0 →
      dpqCall d none = dpqCall d (some (.inl v0))) ∧
    dpqCall ⟨[-1], [1], uVA, some ⟨1, basePfx, unitlessU⟩, GLOBAL_TOLERANCE⟩ none =
      .error .valueError := by
  refine ⟨?_, ?_, ?_, ?_, ?_, ?_⟩
  · intro d h
    simp [dpqCall, h]
  · intro d v0 q h hu
    simp [dpqCall, dpqCallPQ, h, hu]
  · intro d q r h
    have h2 : dpqCallPQ d q = .ok r := h
    unfold dpqCallPQ at h2
    split at h2
    · split at h2
      · simp at h2
      · exact dpqEvalAt_ok d (pqValue q) r h2
    · exact dpqEvalAt_ok d (pqValue q) r h2
  · intro d x r h
    exact dpqEvalAt_ok d x r h
  · intro d v0 h
    simp [dpqCall, h]
  · have hval : pqValue ⟨1, basePfx, unitlessU⟩ = 1 := by
      norm_num [pqValue, basePfx]
    have hx : polyeval [(-1 : ℚ)] (pqValue ⟨1, basePfx, unitlessU⟩) /
        polyeval [(1 : ℚ)] (pqValue ⟨1, basePfx, unitlessU⟩) = -1 := by
      rw [hval]
      simp [polyeval, Finset.sum_range_one]
    have hf : fromNumberPfx (-1 : ℚ) = none := by
      norm_num [fromNumberPfx, pfxTable, List.filter]
    show dpqCallPQ ⟨[-1], [1], uVA, some ⟨1, basePfx, unitlessU⟩, GLOBAL_TOLERANCE⟩
      ⟨1, basePfx, unitlessU⟩ = .error .valueError
    unfold dpqCallPQ dpqEvalAt
    rw [hx]
    simp [pqFromValue, vpFromNumber, hf, show ueqb unitlessU unitlessU = true from rfl]

/-- C4: witness.  A missing var0 raises, a units mismatch against the set var0
raises, and a concrete successful evaluation returns value num(x)/den(x) in
the instance Units. -/
theorem C4_witness :
    dpqCall ⟨[2], [1], uVA, none, GLOBAL_TOLERANCE⟩ none = .error .valueError ∧
    dpqCall ⟨[2], [1], uVA, some ⟨1, basePfx, unitlessU⟩, GLOBAL_TOLERANCE⟩
      (some (.inl ⟨1, basePfx, uKg⟩)) = .error .unitsMismatch ∧
    ((⟨2, basePfx, uVA⟩ : PQ).u =
        (⟨[2], [1], uVA, some ⟨1, basePfx, unitlessU⟩, GLOBAL_TOLERANCE⟩ : DPQ).u ∧
      pqValue ⟨2, basePfx, uVA⟩ =
        polyeval [2] (pqValue ⟨1, basePfx, unitlessU⟩) /
          polyeval [1] (pqValue ⟨1, basePfx, unitlessU⟩)) := by
  have hok2 : dpqCall ⟨[2], [1], uVA, some ⟨1, basePfx, unitlessU⟩, GLOBAL_TOLERANCE⟩
      (some (.inl ⟨1, basePfx, unitlessU⟩)) = .ok ⟨2, basePfx, uVA⟩ := by
    have hval : pqValue ⟨1, basePfx, unitlessU⟩ = 1 := by
      norm_num [pqValue, basePfx]
    have hx : polyeval [(2 : ℚ)] (pqValue ⟨1, basePfx, unitlessU⟩) /
        polyeval [(1 : ℚ)] (pqValue ⟨1, basePfx, unitlessU⟩) = 2 := by
      rw [hval]
      simp [polyeval, Finset.sum_range_one]
    have hf : fromNumberPfx (2 : ℚ) = some ⟨"", 1, ""⟩ := by
      norm_num [fromNumberPfx, pfxTable, List.filter]
    show dpqCallPQ ⟨[2], [1], uVA, some ⟨1, basePfx, unitlessU⟩, GLOBAL_TOLERANCE⟩
      ⟨1, basePfx, unitlessU⟩ = .ok ⟨2, basePfx, uVA⟩
    unfold dpqCallPQ dpqEvalAt
    rw [hx]
    norm_num [pqFromValue, vpFromNumber, hf, basePfx,
      show ueqb unitlessU unitlessU = true from rfl]
  exact ⟨C4_dpq_call_spec.1 ⟨[2], [1], uVA, none, GLOBAL_TOLERANCE⟩ rfl,
    C4_dpq_call_spec.2.1 ⟨[2], [1], uVA, some ⟨1, basePfx, unitlessU⟩, GLOBAL_TOLERANCE⟩
      ⟨1, basePfx, unitlessU⟩ ⟨1, basePfx, uKg⟩ rfl rfl,
    C4_dpq_call_spec.2.2.1 ⟨[2], [1], uVA, some ⟨1, basePfx, unitlessU⟩, GLOBAL_TOLERANCE⟩
      ⟨1, basePfx, unitlessU⟩ ⟨2, basePfx, uVA⟩ hok2⟩

end PyEE
